import Mathlib

/-!
Verification of the checkpoint-engine specification of the
`bitcoin-bridge-cw` repository against a shallow embedding of its source.

The embedding covers:

* `Dest`, `IbcDest` and `Dest.commitment_bytes` / `Dest.to_receiver_addr`
  from `contracts/checkpoint/src/interface.rs`;
* `CheckpointConfig` from the same file;
* the checkpoint queue (`take_pending`, cursor invariants, the fee-rate
  controller, `change_rates`) and the SPV height checks of `relay_deposit`.
  The Rust implementations of these live outside the supplied sources (only
  their tests in `contracts/cw-bitcoin/src/tests/bitcoin.rs` are supplied),
  so they are modelled from the specification, as flagged on each
  definition.

Machine integers are modelled as `Nat`; none of the operations verified here
can overflow `u64`/`u32` on the inputs involved. Fallible Rust functions
returning `ContractResult` are embedded as `Except String`.
-/

namespace Bridge

/-! ## Destinations (contracts/checkpoint/src/interface.rs) -/

/-- UTF-8 bytes of a string, as `Nat`s: the embedding of Rust
`str::as_bytes`. -/
def strBytes (s : String) : List Nat :=
  s.toUTF8.toList.map (fun b => b.toNat)

/-- `IbcDest` from interface.rs. The `receiver` and `sender` fields carry
`serde(skip)` in the source; the wire form `IbcDest.serializedFields` below
reflects that. -/
structure IbcDest where
  source_port : String
  source_channel : String
  receiver : String
  sender : String
  timeout_timestamp : Nat
  memo : String
deriving DecidableEq

/-- `Dest` from interface.rs: a destination is either a plain address or an
IBC destination. -/
inductive Dest where
  | Address (addr : String)
  | Ibc (dest : IbcDest)
deriving DecidableEq

/-- `Dest::to_receiver_addr` from interface.rs. -/
def Dest.to_receiver_addr : Dest → String
  | .Address addr => addr
  | .Ibc dest => dest.receiver

/-- `Dest::commitment_bytes` from interface.rs. The external `sha2`
collaborator (`Sha256::digest`) is passed in as the function `sha256`; the
source wraps the result in `Ok` and has no error path. -/
def Dest.commitment_bytes (sha256 : List Nat → List Nat) :
    Dest → Except String (List Nat)
  | .Address addr => .ok (strBytes addr)
  | .Ibc dest => .ok (sha256 (strBytes dest.receiver))

/-- The serde wire form of `IbcDest`: the serialized fields in declaration
order. `receiver` and `sender` are marked `#[serde(skip)]` in interface.rs
and hence are absent. -/
def IbcDest.serializedFields (d : IbcDest) : List (String × String) :=
  [("source_port", d.source_port),
   ("source_channel", d.source_channel),
   ("timeout_timestamp", toString d.timeout_timestamp),
   ("memo", d.memo)]

/-- C3: `Dest::commitment_bytes` returns exactly the address bytes for an
`Address` destination and exactly the SHA-256 digest of the receiver
string's bytes for an IBC destination; no field of an `IbcDest` other than
`receiver` influences the commitment. Stated for every choice of the
external hash function `sha256`. -/
theorem commitment_bytes_spec (sha256 : List Nat → List Nat)
    (addr : String) (d d2 : IbcDest) (hrecv : d.receiver = d2.receiver) :
    Dest.commitment_bytes sha256 (.Address addr) = .ok (strBytes addr)
    ∧ Dest.commitment_bytes sha256 (.Ibc d) =
        .ok (sha256 (strBytes d.receiver))
    ∧ Dest.commitment_bytes sha256 (.Ibc d) =
        Dest.commitment_bytes sha256 (.Ibc d2) := by
  refine ⟨rfl, rfl, ?_⟩
  simp only [Dest.commitment_bytes, hrecv]

/-- The two IBC destinations used by `test_take_pending` in
contracts/cw-bitcoin/src/tests/bitcoin.rs: identical except for `sender`. -/
def ibcDest1 : IbcDest :=
  { source_port := "transfer"
    source_channel := "channel-0"
    receiver := "receiver"
    sender := "sender1"
    timeout_timestamp := 10
    memo := "" }

/-- Same as `ibcDest1` with `sender` changed, as in the test fixture. -/
def ibcDest2 : IbcDest :=
  { ibcDest1 with sender := "sender2" }

theorem commitment_bytes_spec_witness :
    ibcDest1.receiver = ibcDest2.receiver
    ∧ (Dest.commitment_bytes (fun l => l) (.Address "orai1") =
          .ok (strBytes "orai1")
       ∧ Dest.commitment_bytes (fun l => l) (.Ibc ibcDest1) =
          .ok (strBytes ibcDest1.receiver)
       ∧ Dest.commitment_bytes (fun l => l) (.Ibc ibcDest1) =
          Dest.commitment_bytes (fun l => l) (.Ibc ibcDest2)) :=
  ⟨rfl, commitment_bytes_spec (fun l => l) "orai1" ibcDest1 ibcDest2 rfl⟩

/-- C4: the serialized form of `IbcDest` excludes `sender` and `receiver`:
two values agreeing on every other field serialize identically. -/
theorem ibc_serialization_excludes_sender_receiver (d d2 : IbcDest)
    (hport : d.source_port = d2.source_port)
    (hchan : d.source_channel = d2.source_channel)
    (htime : d.timeout_timestamp = d2.timeout_timestamp)
    (hmemo : d.memo = d2.memo) :
    d.serializedFields = d2.serializedFields := by
  simp only [IbcDest.serializedFields, hport, hchan, htime, hmemo]

theorem ibc_serialization_excludes_sender_receiver_witness :
    ibcDest1.source_port = ibcDest2.source_port
    ∧ ibcDest1.source_channel = ibcDest2.source_channel
    ∧ ibcDest1.timeout_timestamp = ibcDest2.timeout_timestamp
    ∧ ibcDest1.memo = ibcDest2.memo
    ∧ ibcDest1.serializedFields = ibcDest2.serializedFields :=
  ⟨rfl, rfl, rfl, rfl,
    ibc_serialization_excludes_sender_receiver ibcDest1 ibcDest2
      rfl rfl rfl rfl⟩

/-- C10: `Dest::commitment_bytes` never returns an error: its `Ok`-wrapped
result exists for every destination and every hash function. -/
theorem commitment_bytes_total (sha256 : List Nat → List Nat) (d : Dest) :
    ∃ bytes, Dest.commitment_bytes sha256 d = .ok bytes := by
  cases d with
  | Address addr => exact ⟨strBytes addr, rfl⟩
  | Ibc dest => exact ⟨sha256 (strBytes dest.receiver), rfl⟩

theorem commitment_bytes_total_witness :
    ∃ bytes,
      Dest.commitment_bytes (fun l => l) (.Ibc ibcDest2) = .ok bytes :=
  commitment_bytes_total (fun l => l) (.Ibc ibcDest2)

/-! ## Checkpoint configuration (contracts/checkpoint/src/interface.rs) -/

/-- `CheckpointConfig` from interface.rs. All numeric fields are `Nat`
(`u64`/`u32` in the source). -/
structure CheckpointConfig where
  min_checkpoint_interval : Nat
  max_checkpoint_interval : Nat
  max_inputs : Nat
  max_outputs : Nat
  fee_rate : Nat
  max_age : Nat
  target_checkpoint_inclusion : Nat
  min_fee_rate : Nat
  max_fee_rate : Nat
  user_fee_factor : Nat
  sigset_threshold : Nat × Nat
  emergency_disbursal_min_tx_amt : Nat
  emergency_disbursal_lock_time_interval : Nat
  emergency_disbursal_max_tx_size : Nat
  max_unconfirmed_checkpoints : Nat
deriving DecidableEq

/-- `CheckpointConfig::bitcoin` from interface.rs. The constants imported
there from `constants.rs` (a file not among the supplied sources) are
passed in as arguments; the literal field values are from the source. -/
def CheckpointConfig.bitcoin
    (mAX_CHECKPOINT_INTERVAL mAX_CHECKPOINT_AGE mIN_FEE_RATE mAX_FEE_RATE
      uSER_FEE_FACTOR : Nat) (sIGSET_THRESHOLD : Nat × Nat) :
    CheckpointConfig :=
  { min_checkpoint_interval := 60 * 5
    max_checkpoint_interval := mAX_CHECKPOINT_INTERVAL
    max_inputs := 40
    max_outputs := 200
    max_age := mAX_CHECKPOINT_AGE
    target_checkpoint_inclusion := 2
    min_fee_rate := mIN_FEE_RATE
    max_fee_rate := mAX_FEE_RATE
    user_fee_factor := uSER_FEE_FACTOR
    sigset_threshold := sIGSET_THRESHOLD
    emergency_disbursal_min_tx_amt := 1000
    emergency_disbursal_lock_time_interval := 60 * 60 * 24 * 7 * 8
    emergency_disbursal_max_tx_size := 50000
    max_unconfirmed_checkpoints := 15
    fee_rate := 0 }

/-! ## Checkpoint queue

The queue implementation (`contracts/cw-bitcoin/src/checkpoint.rs`) is not
among the supplied sources — only its tests are — so the queue state and its
operations below are modelled from the specification (spec.md sections 3,
4.3, 4.4, 4.5, 4.6, 4.10), with the tests in
`contracts/cw-bitcoin/src/tests/bitcoin.rs` pinning concrete values. -/

/-- A Cosmos coin: denomination plus amount (`u128` in the source). -/
structure Coin where
  denom : String
  amount : Nat
deriving DecidableEq, Inhabited

/-- Checkpoint status from the spec's data model: `Building`, `Signing` or
`Complete` (confirmation is tracked by the queue's `confirmed_index`). -/
inductive CheckpointStatus where
  | Building
  | Signing
  | Complete
deriving DecidableEq, Inhabited

/-- Modelled from the spec: one checkpoint of the queue, restricted to the
fields the verified claims touch — status, creation time, the signatory-set
snapshot as a list of (signatory key, voting power) pairs, the reserve
output value in satoshis, and the `pending` list of
(receiver address, coin) credits. -/
structure Checkpoint where
  status : CheckpointStatus
  create_time : Nat
  sigset : List (Nat × Nat)
  reserve : Nat
  pending : List (String × Coin)
deriving DecidableEq, Inhabited

/-- Modelled from the spec: the checkpoint queue state. `checkpoints` is
indexed by absolute checkpoint index (pruning is not modelled; it drops only
old Confirmed checkpoints and is irrelevant to the claims below).
`confirmed_index`, `first_unhandled_confirmed_cp_index` and the stored
`fee_rate` are the queue's meta fields. -/
structure CheckpointQueue where
  checkpoints : List Checkpoint
  confirmed_index : Option Nat
  first_unhandled_confirmed_cp_index : Nat
  fee_rate : Nat
deriving DecidableEq

/-- Index of the newest checkpoint (the tail `Building`). -/
def CheckpointQueue.head_index (q : CheckpointQueue) : Nat :=
  q.checkpoints.length - 1

/-- `confirmed_index + 1`, reading an unset `confirmed_index` as "no
checkpoint confirmed yet" (value 0). -/
def CheckpointQueue.confirmedPlusOne (q : CheckpointQueue) : Nat :=
  match q.confirmed_index with
  | none => 0
  | some ci => ci + 1

/-- Clears the `pending` list of every checkpoint whose absolute index lies
in `[lo, hi]`; `i` is the absolute index of the first list element. -/
def clearPendingFrom (lo hi : Nat) : Nat → List Checkpoint → List Checkpoint
  | _, [] => []
  | i, cp :: rest =>
      (if lo ≤ i ∧ i ≤ hi then { cp with pending := [] } else cp) ::
        clearPendingFrom lo hi (i + 1) rest

theorem clearPendingFrom_length (lo hi : Nat) :
    ∀ (l : List Checkpoint) (i : Nat),
      (clearPendingFrom lo hi i l).length = l.length
  | [], _ => rfl
  | cp :: rest, i => by
      simp [clearPendingFrom, clearPendingFrom_length lo hi rest (i + 1)]

theorem clearPendingFrom_getElem? (lo hi : Nat) :
    ∀ (l : List Checkpoint) (i j : Nat),
      (clearPendingFrom lo hi i l)[j]? =
        (l[j]?).map
          (fun cp =>
            if lo ≤ i + j ∧ i + j ≤ hi then { cp with pending := [] }
            else cp)
  | [], _, _ => by simp [clearPendingFrom]
  | cp :: rest, i, 0 => by simp [clearPendingFrom]
  | cp :: rest, i, j + 1 => by
      have ih := clearPendingFrom_getElem? lo hi rest (i + 1) j
      simp only [clearPendingFrom, List.getElem?_cons_succ, ih]
      have harith : i + 1 + j = i + (j + 1) := by omega
      rw [harith]

/-- Modelled from the spec: `take_pending` (section 4.10). Drains `pending`
from every Confirmed checkpoint in the index range
`[first_unhandled_confirmed_cp_index, confirmed_index]`, clears each
pending list, advances `first_unhandled_confirmed_cp_index` to
`confirmed_index + 1`, and returns one sequence per drained checkpoint in
index order, each preserving insertion order. With no confirmed checkpoint
it returns the empty sequence and leaves the queue unchanged. -/
def take_pending (q : CheckpointQueue) :
    List (List (String × Coin)) × CheckpointQueue :=
  match q.confirmed_index with
  | none => ([], q)
  | some ci =>
      let lo := q.first_unhandled_confirmed_cp_index
      let outs := (List.range' lo (ci + 1 - lo)).map
        (fun i => (q.checkpoints.getD i default).pending)
      (outs,
        { q with
          checkpoints := clearPendingFrom lo ci 0 q.checkpoints
          first_unhandled_confirmed_cp_index := ci + 1 })

theorem take_pending_none_eq (cps : List Checkpoint) (fu fr : Nat) :
    take_pending ⟨cps, none, fu, fr⟩ = ([], ⟨cps, none, fu, fr⟩) := rfl

theorem take_pending_some_eq (cps : List Checkpoint) (ci fu fr : Nat) :
    take_pending ⟨cps, some ci, fu, fr⟩ =
      ((List.range' fu (ci + 1 - fu)).map
          (fun i => (cps.getD i default).pending),
        ⟨clearPendingFrom fu ci 0 cps, some ci, ci + 1, fr⟩) := rfl

/-- C1: on a queue whose Confirmed checkpoints in
`[first_unhandled_confirmed_cp_index, confirmed_index]` exist,
`take_pending` returns exactly one sequence per checkpoint in that range —
each equal to that checkpoint's `pending` list, hence preserving its
insertion order — clears the `pending` list of every checkpoint in the
range, and sets `first_unhandled_confirmed_cp_index` to
`confirmed_index + 1`. -/
theorem take_pending_drains (q : CheckpointQueue) (ci : Nat)
    (hci : q.confirmed_index = some ci)
    (hfu : q.first_unhandled_confirmed_cp_index ≤ ci)
    (hlen : ci < q.checkpoints.length) :
    (take_pending q).1.length =
        ci + 1 - q.first_unhandled_confirmed_cp_index
    ∧ (∀ k, k < ci + 1 - q.first_unhandled_confirmed_cp_index →
        (take_pending q).1[k]? =
          (q.checkpoints[q.first_unhandled_confirmed_cp_index + k]?).map
            Checkpoint.pending)
    ∧ (take_pending q).2.first_unhandled_confirmed_cp_index = ci + 1
    ∧ (∀ i, q.first_unhandled_confirmed_cp_index ≤ i → i ≤ ci →
        ((take_pending q).2.checkpoints[i]?).map Checkpoint.pending =
          some []) := by
  obtain ⟨cps, cidx, fu, fr⟩ := q
  dsimp only at hci hfu hlen ⊢
  subst hci
  rw [take_pending_some_eq]
  refine ⟨by simp, ?_, rfl, ?_⟩
  · intro k hk
    have hik : fu + k < cps.length := by omega
    have hrange : (List.range' fu (ci + 1 - fu) 1)[k]? =
        some (fu + 1 * k) := List.getElem?_range' fu 1 hk
    simp only [List.getElem?_map, hrange, Nat.one_mul, Option.map_some',
      List.getD_eq_getElem?_getD, List.getElem?_eq_getElem hik]
    rfl
  · intro i hlo hhi
    have hilen : i < cps.length := by omega
    have hclear := clearPendingFrom_getElem? fu ci cps 0 i
    simp only [Nat.zero_add] at hclear
    rw [hclear, List.getElem?_eq_getElem hilen, Option.map_some',
      if_pos ⟨hlo, hhi⟩, Option.map_some']

/-- The queue state of the `take_pending` drain scenario: checkpoint 0 holds
two pending 1-unit credits, checkpoint 1 one pending 5-unit credit, both
confirmed, with a fresh Building at the tail. -/
def drainQueue : CheckpointQueue :=
  { checkpoints :=
      [ { status := .Complete, create_time := 1000, sigset := [(1, 100)]
          reserve := 100000000
          pending := [("receiver", ⟨"usat", 1⟩), ("receiver", ⟨"usat", 1⟩)] }
      , { status := .Complete, create_time := 2000, sigset := [(1, 100)]
          reserve := 200000000
          pending := [("receiver", ⟨"usat", 5⟩)] }
      , { status := .Building, create_time := 3000, sigset := [(1, 100)]
          reserve := 0, pending := [] } ]
    confirmed_index := some 1
    first_unhandled_confirmed_cp_index := 0
    fee_rate := 0 }

theorem take_pending_drains_witness :
    drainQueue.confirmed_index = some 1
    ∧ drainQueue.first_unhandled_confirmed_cp_index ≤ 1
    ∧ 1 < drainQueue.checkpoints.length
    ∧ ((take_pending drainQueue).1.length =
          1 + 1 - drainQueue.first_unhandled_confirmed_cp_index
      ∧ (∀ k, k < 1 + 1 - drainQueue.first_unhandled_confirmed_cp_index →
          (take_pending drainQueue).1[k]? =
            (drainQueue.checkpoints[
                drainQueue.first_unhandled_confirmed_cp_index + k]?).map
              Checkpoint.pending)
      ∧ (take_pending drainQueue).2.first_unhandled_confirmed_cp_index =
          1 + 1
      ∧ (∀ i, drainQueue.first_unhandled_confirmed_cp_index ≤ i → i ≤ 1 →
          ((take_pending drainQueue).2.checkpoints[i]?).map
              Checkpoint.pending = some [])) :=
  ⟨rfl, by decide, by decide,
    take_pending_drains drainQueue 1 rfl (by decide) (by decide)⟩

/-- C2: two back-to-back `take_pending` calls with no state change in
between — the second call returns the empty sequence. -/
theorem take_pending_idempotent (q : CheckpointQueue) :
    (take_pending (take_pending q).2).1 = [] := by
  obtain ⟨cps, cidx, fu, fr⟩ := q
  cases cidx with
  | none => rw [take_pending_none_eq, take_pending_none_eq]
  | some ci =>
      rw [take_pending_some_eq, take_pending_some_eq]
      simp

theorem take_pending_idempotent_witness :
    (take_pending (take_pending drainQueue).2).1 = [] :=
  take_pending_idempotent drainQueue

/-! ## Queue state machine (spec sections 4.3, 4.4, 4.6, 4.10)

The exposed operations that touch the queue's meta fields, modelled from
the spec: promotion during `begin_block_step` (appends a fresh Building
checkpoint and may adjust the fee rate by the section 4.6 controller),
the external confirmation update (monotonic, not past `head_index - 1`),
and `take_pending`. -/

/-- Modelled from the spec: the upward fee-rate adjustment
`fee_rate := min(max_fee_rate, fee_rate × 5/4)` of section 4.6. -/
def fee_adjust_up (cfg : CheckpointConfig) (r : Nat) : Nat :=
  min cfg.max_fee_rate (r * 5 / 4)

/-- Modelled from the spec: the downward fee-rate adjustment
`fee_rate := max(min_fee_rate, fee_rate × 4/5)` of section 4.6. -/
def fee_adjust_down (cfg : CheckpointConfig) (r : Nat) : Nat :=
  max cfg.min_fee_rate (r * 4 / 5)

/-- Modelled from the spec: one exposed queue operation. `promote_keep`,
`promote_up` and `promote_down` are the `begin_block_step` promotion with
the fee rate respectively left alone, adjusted up, or adjusted down;
`confirm` is the external confirmation update of section 4.3 (never below
the current value, never past `head_index - 1`); `take` is `take_pending`,
keeping only its state change. -/
inductive QueueOp (cfg : CheckpointConfig) :
    CheckpointQueue → CheckpointQueue → Prop where
  | promote_keep (q : CheckpointQueue) (cp : Checkpoint) :
      QueueOp cfg q { q with checkpoints := q.checkpoints ++ [cp] }
  | promote_up (q : CheckpointQueue) (cp : Checkpoint) :
      QueueOp cfg q
        { q with
          checkpoints := q.checkpoints ++ [cp]
          fee_rate := fee_adjust_up cfg q.fee_rate }
  | promote_down (q : CheckpointQueue) (cp : Checkpoint) :
      QueueOp cfg q
        { q with
          checkpoints := q.checkpoints ++ [cp]
          fee_rate := fee_adjust_down cfg q.fee_rate }
  | confirm (q : CheckpointQueue) (i : Nat) :
      q.confirmedPlusOne ≤ i + 1 → i + 1 ≤ q.head_index →
      QueueOp cfg q { q with confirmed_index := some i }
  | take (q : CheckpointQueue) : QueueOp cfg q (take_pending q).2

/-- Modelled from the spec: queue states reachable from initialization.
Step 1 of section 4.4 creates the queue with a single genesis Building
checkpoint, no confirmed checkpoint, cursor 0, and a stored fee rate within
the configured bounds; every further state comes from an exposed
operation. -/
inductive Reachable (cfg : CheckpointConfig) : CheckpointQueue → Prop where
  | init (cp : Checkpoint) (r : Nat) :
      cfg.min_fee_rate ≤ r → r ≤ cfg.max_fee_rate →
      Reachable cfg
        { checkpoints := [cp], confirmed_index := none
          first_unhandled_confirmed_cp_index := 0, fee_rate := r }
  | step (q q2 : CheckpointQueue) :
      Reachable cfg q → QueueOp cfg q q2 → Reachable cfg q2

theorem confirmedPlusOne_congr (q q2 : CheckpointQueue)
    (h : q2.confirmed_index = q.confirmed_index) :
    q2.confirmedPlusOne = q.confirmedPlusOne := by
  unfold CheckpointQueue.confirmedPlusOne
  rw [h]

theorem confirmedPlusOne_some (q : CheckpointQueue) (ci : Nat)
    (h : q.confirmed_index = some ci) : q.confirmedPlusOne = ci + 1 := by
  unfold CheckpointQueue.confirmedPlusOne
  rw [h]

theorem queue_fields_take (q : CheckpointQueue) :
    (take_pending q).2.checkpoints.length = q.checkpoints.length
    ∧ (take_pending q).2.confirmed_index = q.confirmed_index
    ∧ (take_pending q).2.fee_rate = q.fee_rate
    ∧ ((q.confirmed_index = none →
          (take_pending q).2.first_unhandled_confirmed_cp_index =
            q.first_unhandled_confirmed_cp_index)
        ∧ ∀ ci, q.confirmed_index = some ci →
            (take_pending q).2.first_unhandled_confirmed_cp_index =
              ci + 1) := by
  obtain ⟨cps, cidx, fu, fr⟩ := q
  cases cidx with
  | none =>
      rw [take_pending_none_eq]
      exact ⟨rfl, rfl, rfl, fun _ => rfl, fun ci h => by cases h⟩
  | some ci =>
      rw [take_pending_some_eq]
      refine ⟨clearPendingFrom_length fu ci cps 0, rfl, rfl, ?_, ?_⟩
      · intro h; cases h
      · intro ci2 h
        cases h
        rfl

/-- C8: every reachable queue state satisfies
`first_unhandled_confirmed_cp_index ≤ confirmed_index + 1 ≤ head_index + 1`
(with an unset `confirmed_index` read as `confirmed_index + 1 = 0`), and in
particular every exposed operation preserves the relation. -/
theorem queue_cursor_invariant (cfg : CheckpointConfig)
    (q : CheckpointQueue) (h : Reachable cfg q) :
    q.first_unhandled_confirmed_cp_index ≤ q.confirmedPlusOne
    ∧ q.confirmedPlusOne ≤ q.head_index + 1 := by
  induction h with
  | init cp r hmin hmax =>
      exact ⟨Nat.le_refl 0, Nat.zero_le _⟩
  | step q q2 hr hop ih =>
      cases hop with
      | promote_keep cp =>
          refine ⟨ih.1, le_trans ih.2 ?_⟩
          simp only [CheckpointQueue.head_index, List.length_append,
            List.length_cons, List.length_nil]
          omega
      | promote_up cp =>
          refine ⟨ih.1, le_trans ih.2 ?_⟩
          simp only [CheckpointQueue.head_index, List.length_append,
            List.length_cons, List.length_nil]
          omega
      | promote_down cp =>
          refine ⟨ih.1, le_trans ih.2 ?_⟩
          simp only [CheckpointQueue.head_index, List.length_append,
            List.length_cons, List.length_nil]
          omega
      | confirm i hmono hhead =>
          have h1 : ({ q with confirmed_index := some i } :
              CheckpointQueue).confirmedPlusOne = i + 1 := rfl
          refine ⟨?_, ?_⟩
          · rw [h1]
            exact le_trans ih.1 hmono
          · rw [h1]
            exact le_trans hhead (Nat.le_succ_of_le (Nat.le_refl _))
      | take =>
          obtain ⟨hl, hc, _, hnone, hsome⟩ := queue_fields_take q
          have hcp : (take_pending q).2.confirmedPlusOne =
              q.confirmedPlusOne := confirmedPlusOne_congr q _ hc
          have hhd : (take_pending q).2.head_index = q.head_index := by
            unfold CheckpointQueue.head_index
            rw [hl]
          refine ⟨?_, by rw [hcp, hhd]; exact ih.2⟩
          rw [hcp]
          cases hci : q.confirmed_index with
          | none =>
              rw [hnone hci]
              exact ih.1
          | some ci =>
              rw [hsome ci hci, confirmedPlusOne_some q ci hci]

/-- A checkpoint configuration with the literal `CheckpointConfig::bitcoin`
values and sample values for the constants that live in the unsupplied
`constants.rs` (`MIN_FEE_RATE = 2` per the source comment "relay threshold
is 1 sat/vbyte"). -/
def cfgW : CheckpointConfig :=
  CheckpointConfig.bitcoin 86400 2592000 2 200 27000 (9, 10)

/-- The genesis Building checkpoint of the scenario fixtures: signatory
powers vp1 = 100, vp2 = 10. -/
def genesisCp : Checkpoint :=
  { status := .Building, create_time := 0, sigset := [(1, 100), (2, 10)]
    reserve := 0, pending := [] }

/-- The queue state right after initialization. -/
def initQueue : CheckpointQueue :=
  { checkpoints := [genesisCp], confirmed_index := none
    first_unhandled_confirmed_cp_index := 0, fee_rate := 2 }

theorem queue_cursor_invariant_witness :
    Reachable cfgW initQueue
    ∧ (initQueue.first_unhandled_confirmed_cp_index ≤
          initQueue.confirmedPlusOne
      ∧ initQueue.confirmedPlusOne ≤ initQueue.head_index + 1) :=
  ⟨Reachable.init genesisCp 2 (by decide) (by decide),
    queue_cursor_invariant cfgW initQueue
      (Reachable.init genesisCp 2 (by decide) (by decide))⟩

/-- C9: in every reachable queue state the stored fee rate lies within
`[min_fee_rate, max_fee_rate]` inclusive — from initialization onward, and
in particular after every section 4.6 adjustment made on promotion. -/
theorem fee_rate_bounds (cfg : CheckpointConfig) (q : CheckpointQueue)
    (h : Reachable cfg q) :
    cfg.min_fee_rate ≤ q.fee_rate ∧ q.fee_rate ≤ cfg.max_fee_rate := by
  induction h with
  | init cp r hmin hmax => exact ⟨hmin, hmax⟩
  | step q q2 hr hop ih =>
      cases hop with
      | promote_keep cp => exact ih
      | promote_up cp =>
          show cfg.min_fee_rate ≤ fee_adjust_up cfg q.fee_rate
            ∧ fee_adjust_up cfg q.fee_rate ≤ cfg.max_fee_rate
          have hminmax : cfg.min_fee_rate ≤ cfg.max_fee_rate :=
            le_trans ih.1 ih.2
          have hup : q.fee_rate ≤ q.fee_rate * 5 / 4 := by omega
          unfold fee_adjust_up
          exact ⟨le_min hminmax (le_trans ih.1 hup), min_le_left _ _⟩
      | promote_down cp =>
          show cfg.min_fee_rate ≤ fee_adjust_down cfg q.fee_rate
            ∧ fee_adjust_down cfg q.fee_rate ≤ cfg.max_fee_rate
          have hminmax : cfg.min_fee_rate ≤ cfg.max_fee_rate :=
            le_trans ih.1 ih.2
          have hdown : q.fee_rate * 4 / 5 ≤ q.fee_rate := by omega
          unfold fee_adjust_down
          exact ⟨le_max_left _ _, max_le hminmax (le_trans hdown ih.2)⟩
      | confirm i hmono hhead => exact ih
      | take =>
          obtain ⟨_, _, hf, _⟩ := queue_fields_take q
          rw [hf]
          exact ih

theorem fee_rate_bounds_witness :
    Reachable cfgW initQueue
    ∧ cfgW.min_fee_rate ≤ initQueue.fee_rate
    ∧ initQueue.fee_rate ≤ cfgW.max_fee_rate :=
  ⟨Reachable.init genesisCp 2 (by decide) (by decide),
    fee_rate_bounds cfgW initQueue
      (Reachable.init genesisCp 2 (by decide) (by decide))⟩

/-! ## SPV height checks of relay_deposit (spec sections 4.7 and 8,
scenario 1)

The header queue and `relay_deposit` live in unsupplied source files; their
height handling is modelled from the spec: the queue stores headers from a
trusted initial height upward, a deposit names a block height, and the
height must resolve to a stored header. -/

/-- Modelled from the spec: the SPV header queue, reduced to its height
window — a trusted initial height and the count of headers pushed past
it. -/
structure HeaderQueue where
  trusted_height : Nat
  pushed : Nat
deriving DecidableEq

/-- Current SPV height: the height of the newest stored header. -/
def HeaderQueue.height (hq : HeaderQueue) : Nat :=
  hq.trusted_height + hq.pushed

/-- Modelled from the spec: header lookup by height. A height above the
current SPV height fails with "Invalid bitcoin block height"; a height
below the trusted initial height fails with the "Passed index is greater
than initial height" error (full message as asserted by
`relay_height_validity` in tests/bitcoin.rs); otherwise the header's
offset is returned. -/
def HeaderQueue.get_by_height (hq : HeaderQueue) (h : Nat) :
    Except String Nat :=
  if hq.height < h then Except.error "Invalid bitcoin block height"
  else if h < hq.trusted_height then
    Except.error
      "Passed index is greater than initial height. Referenced header does not exist on the Header Queue"
  else Except.ok (h - hq.trusted_height)

/-- Modelled from the spec: the height-validation stage of
`relay_deposit`. The claimed block height must resolve to a stored header;
on failure the message is rejected and — the host applying messages
atomically (spec section 5) — the state is left unchanged, which the
embedding renders by returning the error without a successor state. Later
stages (merkle proof, output binding) are outside the modelled claim and
leave the state unchanged here. -/
def relay_deposit (hq : HeaderQueue) (claimed_height : Nat) :
    Except String HeaderQueue :=
  match hq.get_by_height claimed_height with
  | Except.error e => Except.error e
  | Except.ok _ => Except.ok hq

/-- C5: with 10 headers pushed past a trusted height `t` (of at least 90,
as any real Bitcoin height is), yielding SPV height `H = t + 10`, relaying
at `H + 100` fails with "Invalid bitcoin block height" and relaying at
`H - 100` fails with a message beginning "Passed index is greater than
initial height"; both are rejections, so neither changes the state. -/
theorem relay_height_validity (t : Nat) (ht : 90 ≤ t) :
    relay_deposit ⟨t, 10⟩ (t + 10 + 100) =
        Except.error "Invalid bitcoin block height"
    ∧ relay_deposit ⟨t, 10⟩ (t + 10 - 100) =
        Except.error
          "Passed index is greater than initial height. Referenced header does not exist on the Header Queue"
    ∧ (∃ rest : String,
        "Passed index is greater than initial height. Referenced header does not exist on the Header Queue" =
          "Passed index is greater than initial height" ++ rest) := by
  have hheight : (⟨t, 10⟩ : HeaderQueue).height = t + 10 := rfl
  refine ⟨?_, ?_,
    ⟨". Referenced header does not exist on the Header Queue", rfl⟩⟩
  · unfold relay_deposit HeaderQueue.get_by_height
    rw [hheight, if_pos (by omega)]
  · unfold relay_deposit HeaderQueue.get_by_height
    rw [hheight, if_neg (by omega)]
    have : t + 10 - 100 < (⟨t, 10⟩ : HeaderQueue).trusted_height := by
      show t + 10 - 100 < t
      omega
    rw [if_pos this]

theorem relay_height_validity_witness :
    90 ≤ 1000
    ∧ (relay_deposit ⟨1000, 10⟩ (1000 + 10 + 100) =
          Except.error "Invalid bitcoin block height"
      ∧ relay_deposit ⟨1000, 10⟩ (1000 + 10 - 100) =
          Except.error
            "Passed index is greater than initial height. Referenced header does not exist on the Header Queue"
      ∧ (∃ rest : String,
          "Passed index is greater than initial height. Referenced header does not exist on the Header Queue" =
            "Passed index is greater than initial height" ++ rest)) :=
  ⟨by decide, relay_height_validity 1000 (by decide)⟩

/-! ## change_rates (spec sections 4.5 and 8, scenarios 2 and 3)

`change_rates` lives in an unsupplied source file; it is modelled from the
spec, with the probes asserted by `check_change_rates` in tests/bitcoin.rs
pinning the concrete values. -/

/-- `possible_vp_total` of a signatory set: the sum of its voting powers. -/
def possible_vp (s : List (Nat × Nat)) : Nat := (s.map Prod.snd).sum

/-- Voting power of signatory `k` in a set (0 when absent). -/
def power_of (s : List (Nat × Nat)) (k : Nat) : Nat :=
  match s.find? (fun e => e.1 == k) with
  | some e => e.2
  | none => 0

/-- Modelled from the spec: the `sigset_change` rate of section 4.5 in
basis points, between the window-start sigset and the latest sigset. Each
signatory's power is normalized by its own set's `possible_vp_total`, and
the rate is the total normalized power that moved — half the symmetric
difference of the two normalized power distributions — in basis points,
rounded down; in integers over the common denominator:
`10000 * Σ_k natAbs (p_k*N − n_k*P) / (2*P*N)` with `P`, `N` the two sets'
totals. (The most literal reading of section 4.5, symmetric difference of
raw powers over the start total, yields 8181 basis points on the spec's
own scenario 2, whose pinned value is 4090; the normalized reading used
here reproduces all four `change_rates` probes of `check_change_rates`.) -/
def sigset_change_bp (prev now : List (Nat × Nat)) : Nat :=
  let p := possible_vp prev
  let n := possible_vp now
  let keys := (prev.map Prod.fst ++ now.map Prod.fst).dedup
  let moved := (keys.map (fun k =>
    Int.natAbs ((power_of prev k : Int) * n - (power_of now k : Int) * p))).sum
  10000 * moved / (2 * p * n)

/-- Modelled from the spec: the `withdrawal` rate of section 4.5 in basis
points — total withdrawn value (the reserve decrease, saturating at zero
like the source's `saturating_sub`) over the reserve at window start,
rounded down. -/
def withdrawal_bp (prevReserve nowReserve : Nat) : Nat :=
  10000 * (prevReserve - nowReserve) / prevReserve

/-- Modelled from the spec: the window-start checkpoint index of a
`change_rates` probe — the newest checkpoint created no later than
`now - interval`, never below the probe's `min_checkpoint_index` argument
`reset` (which excludes older checkpoints), and never past the Signing
checkpoint (the second-newest entry; the tail is the Building one). -/
def window_start_index (q : CheckpointQueue) (interval now reset : Nat) :
    Nat :=
  let cutoff := now - interval
  let base := (List.range q.checkpoints.length).foldl
    (fun acc i =>
      if (q.checkpoints.getD i default).create_time ≤ cutoff then i
      else acc) 0
  min (max base reset) (q.checkpoints.length - 2)

/-- Modelled from the spec: `change_rates(interval, now,
min_checkpoint_index)` (section 4.5), returning the pair
(withdrawal, sigset_change) in basis points, comparing the window-start
checkpoint against the currently Signing one. -/
def change_rates (q : CheckpointQueue) (interval now reset : Nat) :
    Nat × Nat :=
  let signing := q.checkpoints.getD (q.checkpoints.length - 2) default
  let prev :=
    q.checkpoints.getD (window_start_index q interval now reset) default
  (withdrawal_bp prev.reserve signing.reserve,
    sigset_change_bp prev.sigset signing.sigset)

/-- The sigset before the validator-power change of scenario 2:
vp1 = 100, vp2 = 10. -/
def sigsetA : List (Nat × Nat) := [(1, 100), (2, 10)]

/-- The sigset after raising vp2 to 100. -/
def sigsetB : List (Nat × Nat) := [(1, 100), (2, 100)]

/-- The queue of the sigset-drift scenario right after the `t = 4000`
step: checkpoints created at t = 0, 1000, 2000, 3000, 4000; each step
promoted the previous Building with one 100_000_000-sat deposit, so the
reserve grows by 1 deposit per checkpoint; the validator change landed
before the t = 3000 step, so the checkpoints created from then on snapshot
`sigsetB`. The tail (t = 4000) is the fresh Building, its predecessor the
Signing checkpoint. -/
def driftQueue : CheckpointQueue :=
  { checkpoints :=
      [ { status := .Complete, create_time := 0, sigset := sigsetA
          reserve := 100000000, pending := [] }
      , { status := .Complete, create_time := 1000, sigset := sigsetA
          reserve := 200000000, pending := [] }
      , { status := .Complete, create_time := 2000, sigset := sigsetA
          reserve := 300000000, pending := [] }
      , { status := .Signing, create_time := 3000, sigset := sigsetB
          reserve := 400000000, pending := [] }
      , { status := .Building, create_time := 4000, sigset := sigsetB
          reserve := 0, pending := [] } ]
    confirmed_index := none
    first_unhandled_confirmed_cp_index := 0
    fee_rate := 0 }

/-- C6: on the sigset-drift scenario (vp1 = 100, vp2 = 10, four deposits
stepped at t = 1000..4000, vp2 raised to 100 before the later steps),
`change_rates(3000, 4100, 0)` returns withdrawal = 0 and
sigset_change = 4090 basis points. -/
theorem change_rates_sigset_drift :
    change_rates driftQueue 3000 4100 0 = (0, 4090) := by decide

end Bridge
